import Mathlib

/-!
Shallow embedding of the record-matching engine of the fantrax-scripts
repository (the prospect-matcher module: `createMatchKey`, `getFieldValue`,
`validateColumns`, `createPlayerMaps`, `findMatches`), together with proofs
about its behaviour.

Modelling decisions:
* Records are the keyed (object-shaped) records the engine consumes:
  association lists from field name to an optional scalar, where `none`
  models a null/undefined field value.  All scalars are modelled as strings,
  which is what the engine sees after its `String(value).trim()` coercion.
* JS string truthiness (the empty string is falsy) is modelled explicitly.
* A JS `Map` is modelled as an association list with replace-or-append
  insertion, so `get` observes exactly the JS `Map` get/set/has behaviour.
* A dataset argument is `Option (List Rec)`: `none` models passing `null`
  (or any non-array value, which `Array.isArray` rejects the same way).
* Throwing is modelled with `Except String`.
-/

/-- Characters removed by the JS `String.prototype.trim` model (ASCII whitespace). -/
def isJsSpace (c : Char) : Bool := c == ' ' || c == '\t' || c == '\n' || c == '\r'

/-- Removes leading and trailing whitespace from a character list. -/
def trimList (l : List Char) : List Char :=
  ((l.dropWhile isJsSpace).reverse.dropWhile isJsSpace).reverse

/-- Model of JS `String.prototype.trim`. -/
def jsTrim (s : String) : String := ⟨trimList s.toList⟩

/-- Model of JS `String.prototype.toLowerCase` (ASCII case folding). -/
def jsToLower (s : String) : String := ⟨s.toList.map Char.toLower⟩

/-- Model of the JS expression `a || b` for strings: the empty string is falsy. -/
def jsOr (a b : String) : String := if a = "" then b else a

/-- Embedding of `createMatchKey(playerName, teamName)`.  The separator decision
tests the original `teamName` argument for JS truthiness before trimming,
exactly as the conditional expression in the source does. -/
def createMatchKey (playerName : String) (teamName : String) : String :=
  let normalizedName := jsToLower (jsTrim playerName)
  let normalizedTeam := jsToLower (jsTrim teamName)
  if teamName ≠ "" then normalizedName ++ "_" ++ normalizedTeam else normalizedName

/-- Embedding of the call form `createMatchKey(playerName)` with the team
argument omitted: the JS default parameter supplies `teamName = ""`. -/
def createMatchKey1 (playerName : String) : String := createMatchKey playerName ""

/-- A keyed record: field name to optional scalar; `none` models null/undefined. -/
abbrev Rec := List (String × Option String)

/-- Property access `obj[k]` on a keyed record: `none` when the key is absent
or its stored value is null/undefined. -/
def jsGet (obj : Rec) (k : String) : Option String :=
  (obj.find? (fun p => p.1 == k)).bind (fun p => p.2)

/-- Embedding of `getFieldValue(obj, fieldName)` for a keyed record and a single
field name: `String(value).trim()` when present and non-null, else `""`. -/
def getFieldValue (obj : Rec) (fieldName : String) : String :=
  match jsGet obj fieldName with
  | some v => jsTrim v
  | none => ""

/-- `getFieldValue` lifted to a nullable field identifier: a null role always
resolves to `""` (records are assumed not to carry a literal "null" key). -/
def getFieldValueOpt (obj : Rec) : Option String → String
  | some f => getFieldValue obj f
  | none => ""

/-- The Fantrax half of the column mapping after merging; `none` models a null role. -/
structure FantraxMapping where
  player : Option String
  team : Option String
  number : Option String
  position : Option String
  age : Option String
deriving DecidableEq

/-- The IBW half of the column mapping after merging; `none` models a null role. -/
structure IbwMapping where
  player : Option String
  team : Option String
  rank : Option String
  number : Option String
deriving DecidableEq

/-- The fully merged column mapping. -/
structure Mapping where
  fantrax : FantraxMapping
  ibw : IbwMapping
deriving DecidableEq

/-- The `defaultMapping.fantrax` object of `findMatches`. -/
def defaultFantraxMapping : FantraxMapping :=
  ⟨some "Player", some "Team", some "Number", some "Position", some "Age"⟩

/-- The `defaultMapping.ibw` object of `findMatches` (rank and number both
default to the "Number" column). -/
def defaultIbwMapping : IbwMapping :=
  ⟨some "Player", some "Team", some "Number", some "Number"⟩

/-- A caller-supplied override for the Fantrax roles: the outer `none` models a
role key absent from the override object, `some v` a role key present with
value `v` (possibly null). -/
structure FantraxOverride where
  player : Option (Option String)
  team : Option (Option String)
  number : Option (Option String)
  position : Option (Option String)
  age : Option (Option String)
deriving DecidableEq

/-- A caller-supplied override for the IBW roles. -/
structure IbwOverride where
  player : Option (Option String)
  team : Option (Option String)
  rank : Option (Option String)
  number : Option (Option String)
deriving DecidableEq

/-- The `columnMapping` argument of `findMatches`. -/
structure MappingOverride where
  fantrax : FantraxOverride
  ibw : IbwOverride
deriving DecidableEq

/-- The empty override object `{}` (the JS default argument). -/
def emptyOverride : MappingOverride :=
  ⟨⟨none, none, none, none, none⟩, ⟨none, none, none, none⟩⟩

/-- The shallow spread merge `{...defaultMapping.x, ...columnMapping.x}`
performed independently per dataset at the top of `findMatches`. -/
def mergeMapping (ov : MappingOverride) : Mapping :=
  ⟨⟨ov.fantrax.player.getD defaultFantraxMapping.player,
    ov.fantrax.team.getD defaultFantraxMapping.team,
    ov.fantrax.number.getD defaultFantraxMapping.number,
    ov.fantrax.position.getD defaultFantraxMapping.position,
    ov.fantrax.age.getD defaultFantraxMapping.age⟩,
   ⟨ov.ibw.player.getD defaultIbwMapping.player,
    ov.ibw.team.getD defaultIbwMapping.team,
    ov.ibw.rank.getD defaultIbwMapping.rank,
    ov.ibw.number.getD defaultIbwMapping.number⟩⟩

/-- `Object.values(mapping.fantrax).filter(col => col !== null)`, in field order. -/
def requiredFantraxCols (m : FantraxMapping) : List String :=
  [m.player, m.team, m.number, m.position, m.age].filterMap id

/-- `Object.values(mapping.ibw).filter(col => col !== null)`, in field order. -/
def requiredIbwCols (m : IbwMapping) : List String :=
  [m.player, m.team, m.rank, m.number].filterMap id

/-- The error message built by `validateColumns` for keyed records. -/
def schemaErrorMsg (dataType : String) (missingColumns availableColumns : List String) : String :=
  "Missing required columns in " ++ dataType ++ " data: " ++
    String.intercalate ", " missingColumns ++ ". Available columns: " ++
    String.intercalate ", " availableColumns

/-- Embedding of `validateColumns(sampleRecord, requiredColumns, dataType)` for
keyed records: a required column is missing when it is not among the record's
own keys (`Object.keys`); the value stored under the key plays no part. -/
def validateColumns (sampleRecord : Rec) (requiredColumns : List String)
    (dataType : String) : Except String Unit :=
  let availableColumns := sampleRecord.map (fun p => p.1)
  let missingColumns := requiredColumns.filter
    (fun col => !(availableColumns.any (fun available => available == col)))
  if missingColumns ≠ [] then
    Except.error (schemaErrorMsg dataType missingColumns availableColumns)
  else
    Except.ok ()

/-- JS `Map.prototype.get`. -/
def jsMapGet (m : List (String × Rec)) (k : String) : Option Rec :=
  (m.find? (fun p => p.1 == k)).map (fun p => p.2)

/-- JS `Map.prototype.has`. -/
def jsMapHas (m : List (String × Rec)) (k : String) : Bool :=
  (m.find? (fun p => p.1 == k)).isSome

/-- JS `Map.prototype.set`: replaces the value at an existing key, else appends. -/
def jsMapSet : List (String × Rec) → String → Rec → List (String × Rec)
  | [], k, v => [(k, v)]
  | p :: rest, k, v => if p.1 == k then (k, v) :: rest else p :: jsMapSet rest k v

/-- The pair of lookup maps returned by `createPlayerMaps`. -/
structure PlayerMaps where
  exact : List (String × Rec)
  nameOnly : List (String × Rec)
deriving DecidableEq

/-- The resolved player name of a Fantrax record under a mapping. -/
def fantraxName (mp : FantraxMapping) (r : Rec) : String := getFieldValueOpt r mp.player

/-- The resolved team of a Fantrax record under a mapping
(`getFieldValue(record, mapping.team) || ""`). -/
def fantraxTeam (mp : FantraxMapping) (r : Rec) : String :=
  jsOr (getFieldValueOpt r mp.team) ""

/-- The full (name+team) key a Fantrax record is indexed under. -/
def fantraxFullKey (mp : FantraxMapping) (r : Rec) : String :=
  createMatchKey (fantraxName mp r) (fantraxTeam mp r)

/-- The name-only key a Fantrax record is indexed under. -/
def fantraxNameKey (mp : FantraxMapping) (r : Rec) : String :=
  createMatchKey1 (fantraxName mp r)

/-- The body of the `forEach` loop of `createPlayerMaps`: skip empty-name
records, insert into `exact` unconditionally (overwrite), into `nameOnly`
only when the key is not yet present. -/
def indexRecord (mp : FantraxMapping) (maps : PlayerMaps) (record : Rec) : PlayerMaps :=
  let playerName := fantraxName mp record
  if playerName = "" then maps
  else
    let fullKey := fantraxFullKey mp record
    let exactMap := jsMapSet maps.exact fullKey record
    let nameOnlyKey := fantraxNameKey mp record
    let nameOnlyMap :=
      if jsMapHas maps.nameOnly nameOnlyKey then maps.nameOnly
      else jsMapSet maps.nameOnly nameOnlyKey record
    ⟨exactMap, nameOnlyMap⟩

/-- Embedding of `createPlayerMaps(fantraxPlayers, mapping)`. -/
def createPlayerMaps (fantraxPlayers : List Rec) (mp : FantraxMapping) : PlayerMaps :=
  fantraxPlayers.foldl (indexRecord mp) ⟨[], []⟩

/-- The statistics object accumulated by `findMatches`. -/
structure Stats where
  exactMatches : Nat
  nameOnlyMatches : Nat
  totalMatches : Nat
  totalIBWPlayers : Nat
deriving DecidableEq

/-- One element of the `matchingPlayers` array of `findMatches`. -/
structure MatchEntry where
  ibwPlayer : Rec
  fantraxData : Rec
  matchType : String
  ibwIndex : Nat
deriving DecidableEq

/-- The successful return value of `findMatches`; `matchList` embeds the
`matches` property (the word itself is reserved syntax in Lean). -/
structure MatchResult where
  matchList : List MatchEntry
  stats : Stats
  columnMapping : Mapping
deriving DecidableEq

/-- The resolved player name of an IBW record under a mapping. -/
def ibwName (mp : IbwMapping) (r : Rec) : String := getFieldValueOpt r mp.player

/-- The resolved team of an IBW record under a mapping
(`getFieldValue(ibwPlayer, mapping.ibw.team) || ""`). -/
def ibwTeam (mp : IbwMapping) (r : Rec) : String :=
  jsOr (getFieldValueOpt r mp.team) ""

/-- The full (name+team) lookup key of an IBW record. -/
def ibwFullKey (mp : IbwMapping) (r : Rec) : String :=
  createMatchKey (ibwName mp r) (ibwTeam mp r)

/-- The name-only lookup key of an IBW record. -/
def ibwNameKey (mp : IbwMapping) (r : Rec) : String :=
  createMatchKey1 (ibwName mp r)

/-- The body of the `forEach` loop of `findMatches`: skip empty names, try the
exact map first, then the name-only map, appending a match and bumping the
corresponding counters on a hit. -/
def processIbw (maps : PlayerMaps) (mp : IbwMapping)
    (acc : List MatchEntry × Stats) (p : Nat × Rec) : List MatchEntry × Stats :=
  let index := p.1
  let ibwPlayer := p.2
  let playerName := getFieldValueOpt ibwPlayer mp.player
  if playerName = "" then acc
  else
    let fullKey := createMatchKey playerName (jsOr (getFieldValueOpt ibwPlayer mp.team) "")
    let nameOnlyKey := createMatchKey1 playerName
    match jsMapGet maps.exact fullKey with
    | some fantraxData =>
        (acc.1 ++ [⟨ibwPlayer, fantraxData, "exact", index⟩],
         ⟨acc.2.exactMatches + 1, acc.2.nameOnlyMatches,
          acc.2.totalMatches + 1, acc.2.totalIBWPlayers⟩)
    | none =>
      match jsMapGet maps.nameOnly nameOnlyKey with
      | some fantraxData =>
          (acc.1 ++ [⟨ibwPlayer, fantraxData, "name-only", index⟩],
           ⟨acc.2.exactMatches, acc.2.nameOnlyMatches + 1,
            acc.2.totalMatches + 1, acc.2.totalIBWPlayers⟩)
      | none => acc

/-- Embedding of `findMatches(fantraxPlayers, ibwPlayers, columnMapping)`:
merge the mapping, validate the datasets (Fantrax first), validate the
required columns against each dataset's first record, index the Fantrax
records, then fold the matching loop over the indexed IBW records. -/
def findMatches (fantraxPlayers ibwPlayers : Option (List Rec))
    (columnMapping : MappingOverride) : Except String MatchResult :=
  let mapping := mergeMapping columnMapping
  match fantraxPlayers with
  | none => Except.error "Fantrax players must be a non-empty array"
  | some [] => Except.error "Fantrax players must be a non-empty array"
  | some (f0 :: frest) =>
    match ibwPlayers with
    | none => Except.error "IBW players must be a non-empty array"
    | some [] => Except.error "IBW players must be a non-empty array"
    | some (i0 :: irest) =>
      match validateColumns f0 (requiredFantraxCols mapping.fantrax) "Fantrax" with
      | Except.error e => Except.error e
      | Except.ok _ =>
        match validateColumns i0 (requiredIbwCols mapping.ibw) "IBW" with
        | Except.error e => Except.error e
        | Except.ok _ =>
          let fantraxPlayersMap := createPlayerMaps (f0 :: frest) mapping.fantrax
          let ibws := i0 :: irest
          let r := (ibws.enum).foldl (processIbw fantraxPlayersMap mapping.ibw)
            ([], ⟨0, 0, 0, ibws.length⟩)
          Except.ok ⟨r.1, r.2, mapping⟩

/-! Helper lemmas about the character-level normalization. -/

/-- Lowercasing never changes whether a character is whitespace. -/
theorem isJsSpace_toLower (c : Char) : isJsSpace (Char.toLower c) = isJsSpace c := by
  by_cases h : 65 ≤ c.toNat ∧ c.toNat ≤ 90
  · have hlow : Char.toLower c = Char.ofNat (c.toNat + 32) := by
      unfold Char.toLower
      rw [if_pos]
      omega
    have hc : isJsSpace c = false := by
      simp only [isJsSpace, Bool.or_eq_false_iff, beq_eq_false_iff_ne]
      refine ⟨⟨⟨?_, ?_⟩, ?_⟩, ?_⟩ <;>
        (intro h'; subst h'; revert h; decide)
    rw [hlow, hc]
    obtain ⟨h1, h2⟩ := h
    generalize c.toNat = n at h1 h2
    interval_cases n <;> decide
  · have hlow : Char.toLower c = c := by
      unfold Char.toLower
      rw [if_neg]
      omega
    rw [hlow]

/-- ASCII lowercasing is idempotent on characters. -/
theorem toLower_toLower (c : Char) : Char.toLower (Char.toLower c) = Char.toLower c := by
  by_cases h : 65 ≤ c.toNat ∧ c.toNat ≤ 90
  · have hlow : Char.toLower c = Char.ofNat (c.toNat + 32) := by
      unfold Char.toLower
      rw [if_pos]
      omega
    rw [hlow]
    obtain ⟨h1, h2⟩ := h
    generalize c.toNat = n at h1 h2
    interval_cases n <;> decide
  · have hlow : Char.toLower c = c := by
      unfold Char.toLower
      rw [if_neg]
      omega
    rw [hlow, hlow]

/-- dropWhile is idempotent. -/
theorem dropWhile_dropWhile_self {α : Type} (p : α → Bool) (l : List α) :
    (l.dropWhile p).dropWhile p = l.dropWhile p := by
  induction l with
  | nil => rfl
  | cons c l ih =>
    by_cases h : p c
    · simp only [List.dropWhile_cons, h, if_true]
      exact ih
    · simp [List.dropWhile_cons, h]

/-- The head of a dropWhile result does not satisfy the predicate. -/
theorem head?_dropWhile_eq_false {α : Type} (p : α → Bool) (l : List α) {c : α}
    (h : (l.dropWhile p).head? = some c) : p c = false := by
  induction l with
  | nil => simp at h
  | cons a l ih =>
    by_cases ha : p a
    · rw [List.dropWhile_cons, if_pos ha] at h
      exact ih h
    · rw [List.dropWhile_cons, if_neg (by simp [ha])] at h
      simp only [List.head?_cons, Option.some.injEq] at h
      subst h
      simpa using ha

/-- A list whose head fails the predicate is unchanged by dropWhile. -/
theorem dropWhile_eq_self_of_head {α : Type} (p : α → Bool) (l : List α)
    (h : ∀ c, l.head? = some c → p c = false) : l.dropWhile p = l := by
  cases l with
  | nil => rfl
  | cons a l =>
    rw [List.dropWhile_cons, if_neg]
    simp [h a rfl]

/-- A nonempty suffix has the same last element as the whole list. -/
theorem suffix_getLast? {α : Type} {l₁ l₂ : List α} (h : l₁ <:+ l₂) (hne : l₁ ≠ []) :
    l₁.getLast? = l₂.getLast? := by
  obtain ⟨t, ht⟩ := h
  subst ht
  rw [List.getLast?_append]
  cases h : l₁.getLast? with
  | none => exact absurd (List.getLast?_eq_none_iff.mp h) hne
  | some c => rfl

/-- The first character of a trimmed list is never whitespace. -/
theorem trimList_head?_false (l : List Char) {c : Char}
    (h : (trimList l).head? = some c) : isJsSpace c = false := by
  unfold trimList at h
  rw [List.head?_reverse] at h
  have hne : ((l.dropWhile isJsSpace).reverse.dropWhile isJsSpace) ≠ [] := by
    intro he
    rw [he] at h
    simp at h
  rw [suffix_getLast? (List.dropWhile_suffix _) hne, List.getLast?_reverse] at h
  exact head?_dropWhile_eq_false _ _ h

/-- The last character of a trimmed list is never whitespace. -/
theorem trimList_getLast?_false (l : List Char) {c : Char}
    (h : (trimList l).getLast? = some c) : isJsSpace c = false := by
  unfold trimList at h
  rw [List.getLast?_reverse] at h
  exact head?_dropWhile_eq_false _ _ h

/-- A list with no whitespace at either edge is unchanged by trimming. -/
theorem trimList_eq_self (l : List Char)
    (h1 : ∀ c, l.head? = some c → isJsSpace c = false)
    (h2 : ∀ c, l.getLast? = some c → isJsSpace c = false) : trimList l = l := by
  unfold trimList
  rw [dropWhile_eq_self_of_head _ _ h1]
  rw [dropWhile_eq_self_of_head _ _ (by intro c hc; rw [List.head?_reverse] at hc; exact h2 c hc)]
  exact List.reverse_reverse l

/-- Trimming is idempotent. -/
theorem trimList_trimList (l : List Char) : trimList (trimList l) = trimList l :=
  trimList_eq_self _ (fun _ h => trimList_head?_false l h)
    (fun _ h => trimList_getLast?_false l h)

/-- Trimming commutes with lowercasing. -/
theorem trimList_map_toLower (l : List Char) :
    trimList (l.map Char.toLower) = (trimList l).map Char.toLower := by
  have hp : (isJsSpace ∘ Char.toLower) = isJsSpace := funext isJsSpace_toLower
  unfold trimList
  rw [List.dropWhile_map, hp, ← List.map_reverse, List.dropWhile_map, hp, ← List.map_reverse]

/-- Lowercasing a list of characters is idempotent. -/
theorem map_toLower_map_toLower (l : List Char) :
    (l.map Char.toLower).map Char.toLower = l.map Char.toLower := by
  rw [List.map_map]
  exact List.map_congr_left (fun c _ => toLower_toLower c)

/-- Normalization (trim then lowercase) is idempotent at the string level. -/
theorem norm_idem (s : String) :
    jsToLower (jsTrim (jsToLower (jsTrim s))) = jsToLower (jsTrim s) := by
  apply String.ext
  show (trimList ((trimList s.toList).map Char.toLower)).map Char.toLower
      = (trimList s.toList).map Char.toLower
  rw [trimList_map_toLower, trimList_trimList, map_toLower_map_toLower]

/-- The first character of a normalized string is never whitespace. -/
theorem norm_head?_false (s : String) {c : Char}
    (h : (jsToLower (jsTrim s)).toList.head? = some c) : isJsSpace c = false := by
  rw [show (jsToLower (jsTrim s)).toList = (trimList s.toList).map Char.toLower from rfl,
    List.head?_map] at h
  cases hh : (trimList s.toList).head? with
  | none => rw [hh] at h; simp at h
  | some d =>
    rw [hh] at h
    have hdc : Char.toLower d = c := by simpa using h
    subst hdc
    rw [isJsSpace_toLower]
    exact trimList_head?_false _ hh

/-- The last character of a normalized string is never whitespace. -/
theorem norm_getLast?_false (s : String) {c : Char}
    (h : (jsToLower (jsTrim s)).toList.getLast? = some c) : isJsSpace c = false := by
  rw [show (jsToLower (jsTrim s)).toList = (trimList s.toList).map Char.toLower from rfl,
    List.getLast?_map] at h
  cases hh : (trimList s.toList).getLast? with
  | none => rw [hh] at h; simp at h
  | some d =>
    rw [hh] at h
    have hdc : Char.toLower d = c := by simpa using h
    subst hdc
    rw [isJsSpace_toLower]
    exact trimList_getLast?_false _ hh

/-- Re-normalizing a full key `normalizedName ++ "_" ++ normalizedTeam` is the identity. -/
theorem norm_append_underscore (n t : String) :
    jsToLower (jsTrim (jsToLower (jsTrim n) ++ "_" ++ jsToLower (jsTrim t)))
      = jsToLower (jsTrim n) ++ "_" ++ jsToLower (jsTrim t) := by
  apply String.ext
  have hdata : (jsToLower (jsTrim n) ++ "_" ++ jsToLower (jsTrim t)).data
      = (jsToLower (jsTrim n)).toList ++ '_' :: (jsToLower (jsTrim t)).toList := by
    rw [String.data_append, String.data_append, List.append_assoc]
    rfl
  show (trimList (jsToLower (jsTrim n) ++ "_" ++ jsToLower (jsTrim t)).toList).map Char.toLower
      = (jsToLower (jsTrim n) ++ "_" ++ jsToLower (jsTrim t)).data
  rw [show (jsToLower (jsTrim n) ++ "_" ++ jsToLower (jsTrim t)).toList
      = (jsToLower (jsTrim n) ++ "_" ++ jsToLower (jsTrim t)).data from rfl, hdata]
  have htrim : trimList ((jsToLower (jsTrim n)).toList ++ '_' :: (jsToLower (jsTrim t)).toList)
      = (jsToLower (jsTrim n)).toList ++ '_' :: (jsToLower (jsTrim t)).toList := by
    apply trimList_eq_self
    · intro c hc
      rw [List.head?_append] at hc
      cases hh : (jsToLower (jsTrim n)).toList.head? with
      | none =>
        rw [hh] at hc
        simp only [Option.or, List.head?_cons, Option.some.injEq] at hc
        subst hc
        decide
      | some d =>
        rw [hh] at hc
        simp only [Option.or, Option.some.injEq] at hc
        subst hc
        exact norm_head?_false n hh
    · intro c hc
      rw [List.getLast?_append] at hc
      have hcons : ('_' :: (jsToLower (jsTrim t)).toList).getLast?
          = ((jsToLower (jsTrim t)).toList.getLast?).or (some '_') := by
        rw [show ('_' :: (jsToLower (jsTrim t)).toList) = ['_'] ++ (jsToLower (jsTrim t)).toList
          from rfl, List.getLast?_append]
        rfl
      rw [hcons] at hc
      cases hh : (jsToLower (jsTrim t)).toList.getLast? with
      | none =>
        rw [hh] at hc
        simp only [Option.or, Option.some.injEq] at hc
        subst hc
        decide
      | some d =>
        rw [hh] at hc
        simp only [Option.or, Option.some.injEq] at hc
        subst hc
        exact norm_getLast?_false t hh
  rw [htrim, List.map_append, List.map_cons]
  rw [show Char.toLower '_' = '_' from by decide]
  rw [show ((jsToLower (jsTrim n)).toList).map Char.toLower = (jsToLower (jsTrim n)).toList from
    map_toLower_map_toLower (trimList n.toList)]
  rw [show ((jsToLower (jsTrim t)).toList).map Char.toLower = (jsToLower (jsTrim t)).toList from
    map_toLower_map_toLower (trimList t.toList)]

/-- createMatchKey with a falsy team argument is bare normalization. -/
theorem createMatchKey_of_empty (s : String) :
    createMatchKey1 s = jsToLower (jsTrim s) := by
  unfold createMatchKey1 createMatchKey
  simp

/-- createMatchKey with a truthy team argument joins the two normalized parts. -/
theorem createMatchKey_of_ne {t : String} (s : String) (h : t ≠ "") :
    createMatchKey s t = jsToLower (jsTrim s) ++ "_" ++ jsToLower (jsTrim t) := by
  unfold createMatchKey
  simp [h]

/-- C1 (counterexample): the claim asserts that an explicitly passed empty-string
team produces the suffixed key lowercased(trim(name)) ++ "_"; on the concrete
name "Juan Soto" the code instead returns the bare key "juan soto", because the
truthiness test `teamName ? ... : ...` treats a passed "" exactly like the
omitted default. -/
theorem createMatchKey_passed_empty_team_cex :
    createMatchKey "Juan Soto" "" = "juan soto" ∧
    createMatchKey "Juan Soto" "" ≠ jsToLower (jsTrim "Juan Soto") ++ "_" := by
  decide

/-- C1 (amended): passing team="" explicitly is indistinguishable from omitting
the team argument; both calls return the bare key lowercased(trim(name)) with
no separator. -/
theorem createMatchKey_passed_empty_team (name : String) :
    createMatchKey name "" = createMatchKey1 name ∧
    createMatchKey1 name = jsToLower (jsTrim name) :=
  ⟨rfl, createMatchKey_of_empty name⟩

/-- C7: createMatchKey is idempotent (re-normalizing an already-produced key
with the team omitted yields the same key) and case/whitespace-insensitive on
the spec's concrete examples. -/
theorem createMatchKey_idem :
    (∀ n t, createMatchKey1 (createMatchKey n t) = createMatchKey n t) ∧
    createMatchKey " Juan Soto " " nyy " = "juan soto_nyy" ∧
    createMatchKey "JUAN SOTO" "NYY" = "juan soto_nyy" ∧
    createMatchKey1 "Juan Soto" = "juan soto" := by
  refine ⟨?_, by decide, by decide, by decide⟩
  intro n t
  by_cases ht : t = ""
  · subst ht
    rw [show createMatchKey n "" = createMatchKey1 n from rfl, createMatchKey_of_empty,
      createMatchKey_of_empty]
    exact norm_idem n
  · rw [createMatchKey_of_ne n ht, createMatchKey_of_empty]
    exact norm_append_underscore n t

/-- C10: a non-empty whitespace-only team string is truthy, so the separator is
kept while the team part trims to nothing: the key is lowercased(trim(name))
followed by a trailing "_", and it differs from the key built with the team
argument omitted. -/
theorem createMatchKey_whitespace_team (name t : String) (h1 : t ≠ "")
    (h2 : jsTrim t = "") :
    createMatchKey name t = jsToLower (jsTrim name) ++ "_" ∧
    createMatchKey name t ≠ createMatchKey1 name := by
  have hval : createMatchKey name t = jsToLower (jsTrim name) ++ "_" := by
    rw [createMatchKey_of_ne name h1, h2]
    rw [show jsToLower "" = "" from rfl, String.append_empty]
  refine ⟨hval, ?_⟩
  rw [hval, createMatchKey_of_empty]
  intro hc
  have hlen := congrArg String.length hc
  rw [String.length_append] at hlen
  rw [show ("_" : String).length = 1 from rfl] at hlen
  omega

/-- C10 witness at the concrete input of the claim. -/
theorem createMatchKey_whitespace_team_witness :
    createMatchKey "Juan Soto" " " = jsToLower (jsTrim "Juan Soto") ++ "_" ∧
    createMatchKey "Juan Soto" " " ≠ createMatchKey1 "Juan Soto" :=
  createMatchKey_whitespace_team "Juan Soto" " " (by decide) (by decide)

/-- C4: a null (or non-array) or empty dataset makes findMatches fail
immediately with a validation error that names the invalid side, Fantrax
(dataset A) or IBW (dataset B); no result is produced. -/
theorem findMatches_validation (ib : Option (List Rec)) (ov : MappingOverride)
    (a : Rec) (l : List Rec) :
    findMatches none ib ov = Except.error "Fantrax players must be a non-empty array" ∧
    findMatches (some []) ib ov = Except.error "Fantrax players must be a non-empty array" ∧
    findMatches (some (a :: l)) none ov = Except.error "IBW players must be a non-empty array" ∧
    findMatches (some (a :: l)) (some []) ov = Except.error "IBW players must be a non-empty array" :=
  ⟨rfl, rfl, rfl, rfl⟩

/-- Getting the key just set returns the value just set. -/
theorem jsMapGet_set_eq (m : List (String × Rec)) (k : String) (v : Rec) :
    jsMapGet (jsMapSet m k v) k = some v := by
  induction m with
  | nil => simp [jsMapGet, jsMapSet, List.find?]
  | cons p rest ih =>
    by_cases h : p.1 = k
    · simp [jsMapSet, h, jsMapGet, List.find?]
    · rw [jsMapSet, if_neg (by simpa using h)]
      rw [jsMapGet, List.find?_cons]
      have : (p.1 == k) = false := by simpa using h
      rw [this]
      exact ih

/-- Setting one key leaves every other key's lookup unchanged. -/
theorem jsMapGet_set_ne (m : List (String × Rec)) (k k' : String) (v : Rec)
    (h : k' ≠ k) : jsMapGet (jsMapSet m k v) k' = jsMapGet m k' := by
  induction m with
  | nil =>
    simp only [jsMapSet, jsMapGet, List.find?]
    have : (k == k') = false := by simpa using fun he => h he.symm
    rw [this]
  | cons p rest ih =>
    by_cases hp : p.1 = k
    · rw [jsMapSet, if_pos (by simpa using hp)]
      rw [jsMapGet, jsMapGet, List.find?_cons, List.find?_cons]
      have h1 : (k == k') = false := by simpa using fun he => h he.symm
      have h2 : (p.1 == k') = false := by
        rw [beq_eq_false_iff_ne]
        intro he
        exact h (he ▸ hp)
      rw [h1, h2]
    · rw [jsMapSet, if_neg (by simpa using hp)]
      rw [jsMapGet, List.find?_cons]
      cases hpk : (p.1 == k') with
      | true => rw [jsMapGet, List.find?_cons, hpk]
      | false =>
        rw [jsMapGet, List.find?_cons, hpk]
        exact ih

/-- has is definable from get. -/
theorem jsMapHas_eq_isSome (m : List (String × Rec)) (k : String) :
    jsMapHas m k = (jsMapGet m k).isSome := by
  rw [jsMapHas, jsMapGet]
  cases m.find? (fun p => p.1 == k) <;> rfl

/-- The record a Fantrax record list indexes under a given name-only key,
first encountered wins: the fold's nameOnly lookup, relative to an arbitrary
starting accumulator. -/
theorem foldl_indexRecord_nameOnly (mp : FantraxMapping) (k : String) :
    ∀ (players : List Rec) (acc : PlayerMaps),
    jsMapGet (players.foldl (indexRecord mp) acc).nameOnly k
      = (jsMapGet acc.nameOnly k).or
          (players.find? (fun r => !(fantraxName mp r == "") && (fantraxNameKey mp r == k))) := by
  intro players
  induction players with
  | nil => intro acc; simp [Option.or_none]
  | cons r rest ih =>
    intro acc
    rw [List.foldl_cons, ih]
    by_cases hname : fantraxName mp r = ""
    · rw [show indexRecord mp acc r = acc from by rw [indexRecord]; simp [hname]]
      rw [List.find?_cons, show (!(fantraxName mp r == "") && (fantraxNameKey mp r == k)) = false
        from by simp [hname]]
    · have hidx : indexRecord mp acc r =
          ⟨jsMapSet acc.exact (fantraxFullKey mp r) r,
           if jsMapHas acc.nameOnly (fantraxNameKey mp r) then acc.nameOnly
           else jsMapSet acc.nameOnly (fantraxNameKey mp r) r⟩ := by
        rw [indexRecord]
        simp [hname]
      rw [hidx]
      by_cases hk : fantraxNameKey mp r = k
      · rw [List.find?_cons, show (!(fantraxName mp r == "") && (fantraxNameKey mp r == k)) = true
          from by simp [hname, hk]]
        by_cases hhas : jsMapHas acc.nameOnly (fantraxNameKey mp r) = true
        · have hsome : (jsMapGet acc.nameOnly k).isSome := by
            rw [← hk, ← jsMapHas_eq_isSome]
            exact hhas
          simp only [hhas, if_true]
          obtain ⟨x, hx⟩ := Option.isSome_iff_exists.mp hsome
          rw [hx, Option.or_some, Option.or_some]
        · simp only [hhas, if_false, Bool.false_eq_true]
          have hnone : jsMapGet acc.nameOnly k = none := by
            rw [← hk]
            cases hg : jsMapGet acc.nameOnly (fantraxNameKey mp r) with
            | none => rfl
            | some x =>
              exfalso
              apply hhas
              rw [jsMapHas_eq_isSome, hg]
              rfl
          rw [hk, jsMapGet_set_eq, hnone, Option.none_or, Option.or_some]
      · rw [List.find?_cons, show (!(fantraxName mp r == "") && (fantraxNameKey mp r == k)) = false
          from by simp [hname, hk]]
        by_cases hhas : jsMapHas acc.nameOnly (fantraxNameKey mp r) = true
        · simp only [hhas, if_true]
        · simp only [hhas, if_false, Bool.false_eq_true]
          rw [jsMapGet_set_ne _ _ _ _ (fun he => hk he.symm)]

/-- The record a Fantrax record list indexes under a given full key, last
encountered wins: the fold's exact lookup, relative to an arbitrary starting
accumulator. -/
theorem foldl_indexRecord_exact (mp : FantraxMapping) (k : String) :
    ∀ (players : List Rec) (acc : PlayerMaps),
    jsMapGet (players.foldl (indexRecord mp) acc).exact k
      = (players.reverse.find?
          (fun r => !(fantraxName mp r == "") && (fantraxFullKey mp r == k))).or
          (jsMapGet acc.exact k) := by
  intro players
  induction players with
  | nil => intro acc; simp [Option.none_or]
  | cons r rest ih =>
    intro acc
    rw [List.foldl_cons, ih, List.reverse_cons, List.find?_append, Option.or_assoc]
    congr 1
    by_cases hname : fantraxName mp r = ""
    · rw [show indexRecord mp acc r = acc from by rw [indexRecord]; simp [hname]]
      rw [show ([r].find? (fun r => !(fantraxName mp r == "") && (fantraxFullKey mp r == k)))
        = none from by
          rw [List.find?_cons, show (!(fantraxName mp r == "") && (fantraxFullKey mp r == k))
            = false from by simp [hname]]
          rfl]
      rw [Option.none_or]
    · have hidx : (indexRecord mp acc r).exact = jsMapSet acc.exact (fantraxFullKey mp r) r := by
        rw [indexRecord]
        simp [hname]
      rw [hidx]
      by_cases hk : fantraxFullKey mp r = k
      · rw [show ([r].find? (fun r => !(fantraxName mp r == "") && (fantraxFullKey mp r == k)))
          = some r from by
            rw [List.find?_cons, show (!(fantraxName mp r == "") && (fantraxFullKey mp r == k))
              = true from by simp [hname, hk]]]
        rw [hk, jsMapGet_set_eq, Option.or_some]
      · rw [show ([r].find? (fun r => !(fantraxName mp r == "") && (fantraxFullKey mp r == k)))
          = none from by
            rw [List.find?_cons, show (!(fantraxName mp r == "") && (fantraxFullKey mp r == k))
              = false from by simp [hname, hk]]
            rfl]
        rw [Option.none_or, jsMapGet_set_ne _ _ _ _ (fun he => hk he.symm)]

/-- C5: in createPlayerMaps, the name-only index binds a key to the first
record (in input order, among records with a non-empty resolved name) whose
name-only key equals it — later duplicates never overwrite it; the exact
index binds a key to the last such record whose full key equals it — a later
duplicate silently overwrites an earlier one. -/
theorem createPlayerMaps_duplicates (players : List Rec) (mp : FantraxMapping) (k : String) :
    jsMapGet (createPlayerMaps players mp).nameOnly k
      = players.find? (fun r => !(fantraxName mp r == "") && (fantraxNameKey mp r == k)) ∧
    jsMapGet (createPlayerMaps players mp).exact k
      = players.reverse.find? (fun r => !(fantraxName mp r == "") && (fantraxFullKey mp r == k)) := by
  constructor
  · rw [createPlayerMaps, foldl_indexRecord_nameOnly]
    rw [show jsMapGet (⟨[], []⟩ : PlayerMaps).nameOnly k = none from rfl, Option.none_or]
  · rw [createPlayerMaps, foldl_indexRecord_exact]
    rw [show jsMapGet (⟨[], []⟩ : PlayerMaps).exact k = none from rfl, Option.or_none]

/-- The per-record lookup logic of the matching loop of findMatches: skip an
empty resolved name, try the exact index on the full key, then the name-only
index on the name-only key; the second component is the matchType string. -/
def lookupMatch (maps : PlayerMaps) (mp : IbwMapping) (ibwPlayer : Rec) : Option (Rec × String) :=
  let playerName := getFieldValueOpt ibwPlayer mp.player
  if playerName = "" then none
  else
    match jsMapGet maps.exact
        (createMatchKey playerName (jsOr (getFieldValueOpt ibwPlayer mp.team) "")) with
    | some fantraxData => some (fantraxData, "exact")
    | none =>
      match jsMapGet maps.nameOnly (createMatchKey1 playerName) with
      | some fantraxData => some (fantraxData, "name-only")
      | none => none

/-- The match entry the loop appends for one indexed IBW record, if any. -/
def matchEntryOf (maps : PlayerMaps) (mp : IbwMapping) (p : Nat × Rec) : Option MatchEntry :=
  (lookupMatch maps mp p.2).map (fun q => ⟨p.2, q.1, q.2, p.1⟩)

/-- Whether an IBW record produces an exact match. -/
def isExactHit (maps : PlayerMaps) (mp : IbwMapping) (r : Rec) : Bool :=
  match lookupMatch maps mp r with
  | some q => q.2 == "exact"
  | none => false

/-- Whether an IBW record produces a name-only match. -/
def isNameOnlyHit (maps : PlayerMaps) (mp : IbwMapping) (r : Rec) : Bool :=
  match lookupMatch maps mp r with
  | some q => q.2 == "name-only"
  | none => false

/-- Every lookup outcome is nothing, an exact hit, or a name-only hit. -/
theorem lookupMatch_cases (maps : PlayerMaps) (mp : IbwMapping) (r : Rec) :
    lookupMatch maps mp r = none ∨
    (∃ fd, lookupMatch maps mp r = some (fd, "exact")) ∨
    (∃ fd, lookupMatch maps mp r = some (fd, "name-only")) := by
  rw [lookupMatch]
  by_cases hname : getFieldValueOpt r mp.player = ""
  · left
    simp [hname]
  · rw [if_neg hname]
    cases hex : jsMapGet maps.exact
        (createMatchKey (getFieldValueOpt r mp.player)
          (jsOr (getFieldValueOpt r mp.team) "")) with
    | some fd => right; left; exact ⟨fd, rfl⟩
    | none =>
      cases hno : jsMapGet maps.nameOnly (createMatchKey1 (getFieldValueOpt r mp.player)) with
      | some fd => right; right; exact ⟨fd, rfl⟩
      | none => left; rfl

/-- The loop body rephrased through lookupMatch. -/
theorem processIbw_eq (maps : PlayerMaps) (mp : IbwMapping)
    (acc : List MatchEntry × Stats) (p : Nat × Rec) :
    processIbw maps mp acc p =
      match lookupMatch maps mp p.2 with
      | none => acc
      | some q =>
          (acc.1 ++ [⟨p.2, q.1, q.2, p.1⟩],
           ⟨acc.2.exactMatches + (if q.2 == "exact" then 1 else 0),
            acc.2.nameOnlyMatches + (if q.2 == "name-only" then 1 else 0),
            acc.2.totalMatches + 1, acc.2.totalIBWPlayers⟩) := by
  dsimp only [processIbw, lookupMatch]
  by_cases hname : getFieldValueOpt p.2 mp.player = ""
  · simp [hname]
  · rw [if_neg hname, if_neg hname]
    cases hex : jsMapGet maps.exact
        (createMatchKey (getFieldValueOpt p.2 mp.player)
          (jsOr (getFieldValueOpt p.2 mp.team) "")) with
    | some fd => rfl
    | none =>
      cases hno : jsMapGet maps.nameOnly (createMatchKey1 (getFieldValueOpt p.2 mp.player)) with
      | some fd => rfl
      | none => rfl

/-- The matching fold of findMatches, fully characterized: the produced match
list is a filterMap over the indexed IBW records and each counter counts the
corresponding kind of hit. -/
theorem foldl_processIbw (maps : PlayerMaps) (mp : IbwMapping) :
    ∀ (l : List Rec) (j : Nat) (ms : List MatchEntry) (st : Stats),
    (List.enumFrom j l).foldl (processIbw maps mp) (ms, st)
      = (ms ++ (List.enumFrom j l).filterMap (matchEntryOf maps mp),
         ⟨st.exactMatches + l.countP (isExactHit maps mp),
          st.nameOnlyMatches + l.countP (isNameOnlyHit maps mp),
          st.totalMatches + l.countP (fun r => (lookupMatch maps mp r).isSome),
          st.totalIBWPlayers⟩) := by
  intro l
  induction l with
  | nil =>
    intro j ms st
    cases st
    simp [List.enumFrom, List.countP, List.countP.go]
  | cons r rest ih =>
    intro j ms st
    rw [show List.enumFrom j (r :: rest) = (j, r) :: List.enumFrom (j + 1) rest from rfl]
    rw [List.foldl_cons, processIbw_eq]
    rcases lookupMatch_cases maps mp r with hlm | ⟨fd, hlm⟩ | ⟨fd, hlm⟩
    · have hme : matchEntryOf maps mp (j, r) = none := by
        rw [matchEntryOf]
        dsimp only
        rw [hlm]
        rfl
      have hE : isExactHit maps mp r = false := by rw [isExactHit, hlm]
      have hN : isNameOnlyHit maps mp r = false := by rw [isNameOnlyHit, hlm]
      have hS : ((lookupMatch maps mp r).isSome : Bool) = false := by rw [hlm]; rfl
      dsimp only
      rw [hlm]
      rw [ih (j + 1) ms st]
      rw [List.filterMap_cons_none hme]
      rw [List.countP_cons, List.countP_cons, List.countP_cons, hE, hN, hS]
      simp
    · have hme : matchEntryOf maps mp (j, r) = some ⟨r, fd, "exact", j⟩ := by
        rw [matchEntryOf]
        dsimp only
        rw [hlm]
        rfl
      have hE : isExactHit maps mp r = true := by rw [isExactHit, hlm]; rfl
      have hN : isNameOnlyHit maps mp r = false := by rw [isNameOnlyHit, hlm]; rfl
      have hS : ((lookupMatch maps mp r).isSome : Bool) = true := by rw [hlm]; rfl
      dsimp only
      rw [hlm]
      dsimp only
      rw [ih]
      rw [List.filterMap_cons_some hme]
      rw [List.countP_cons, List.countP_cons, List.countP_cons, hE, hN, hS]
      dsimp only
      rw [show (if (("exact" : String) == "exact") = true then 1 else 0) = 1 from rfl,
        show (if (("exact" : String) == "name-only") = true then 1 else 0) = 0 from rfl]
      refine Prod.ext ?_ ?_
      · dsimp only
        rw [List.append_assoc, List.singleton_append]
      · dsimp only
        simp only [Stats.mk.injEq]
        refine ⟨?_, ?_, ?_, trivial⟩ <;> simp <;> omega
    · have hme : matchEntryOf maps mp (j, r) = some ⟨r, fd, "name-only", j⟩ := by
        rw [matchEntryOf]
        dsimp only
        rw [hlm]
        rfl
      have hE : isExactHit maps mp r = false := by rw [isExactHit, hlm]; rfl
      have hN : isNameOnlyHit maps mp r = true := by rw [isNameOnlyHit, hlm]; rfl
      have hS : ((lookupMatch maps mp r).isSome : Bool) = true := by rw [hlm]; rfl
      dsimp only
      rw [hlm]
      dsimp only
      rw [ih]
      rw [List.filterMap_cons_some hme]
      rw [List.countP_cons, List.countP_cons, List.countP_cons, hE, hN, hS]
      dsimp only
      rw [show (if (("name-only" : String) == "exact") = true then 1 else 0) = 0 from rfl,
        show (if (("name-only" : String) == "name-only") = true then 1 else 0) = 1 from rfl]
      refine Prod.ext ?_ ?_
      · dsimp only
        rw [List.append_assoc, List.singleton_append]
      · dsimp only
        simp only [Stats.mk.injEq]
        refine ⟨?_, ?_, ?_, trivial⟩ <;> simp <;> omega

/-- Hits split exactly into exact hits and name-only hits. -/
theorem countP_hit_split (maps : PlayerMaps) (mp : IbwMapping) :
    ∀ l : List Rec,
    l.countP (fun r => (lookupMatch maps mp r).isSome)
      = l.countP (isExactHit maps mp) + l.countP (isNameOnlyHit maps mp) := by
  intro l
  induction l with
  | nil => rfl
  | cons r rest ih =>
    rw [List.countP_cons, List.countP_cons, List.countP_cons, ih]
    rcases lookupMatch_cases maps mp r with hlm | ⟨fd, hlm⟩ | ⟨fd, hlm⟩
    · rw [show ((lookupMatch maps mp r).isSome : Bool) = false from by rw [hlm]; rfl,
        show isExactHit maps mp r = false from by rw [isExactHit, hlm],
        show isNameOnlyHit maps mp r = false from by rw [isNameOnlyHit, hlm]]
      simp <;> omega
    · rw [show ((lookupMatch maps mp r).isSome : Bool) = true from by rw [hlm]; rfl,
        show isExactHit maps mp r = true from by rw [isExactHit, hlm]; rfl,
        show isNameOnlyHit maps mp r = false from by rw [isNameOnlyHit, hlm]; rfl]
      simp <;> omega
    · rw [show ((lookupMatch maps mp r).isSome : Bool) = true from by rw [hlm]; rfl,
        show isExactHit maps mp r = false from by rw [isExactHit, hlm]; rfl,
        show isNameOnlyHit maps mp r = true from by rw [isNameOnlyHit, hlm]; rfl]
      simp <;> omega

/-- The indices of the produced match entries are bounded below by the start
index and strictly increasing, hence each dataset-B position occurs at most
once. -/
theorem matchEntry_indices (maps : PlayerMaps) (mp : IbwMapping) :
    ∀ (l : List Rec) (j : Nat),
    (∀ i ∈ (((List.enumFrom j l).filterMap (matchEntryOf maps mp)).map
        MatchEntry.ibwIndex), j ≤ i) ∧
    ((((List.enumFrom j l).filterMap (matchEntryOf maps mp)).map
        MatchEntry.ibwIndex)).Pairwise (· < ·) := by
  intro l
  induction l with
  | nil => intro j; simp [List.enumFrom]
  | cons r rest ih =>
    intro j
    rw [show List.enumFrom j (r :: rest) = (j, r) :: List.enumFrom (j + 1) rest from rfl]
    cases hme : matchEntryOf maps mp (j, r) with
    | none =>
      rw [List.filterMap_cons_none hme]
      refine ⟨fun i hi => ?_, (ih (j + 1)).2⟩
      exact le_trans (Nat.le_succ j) ((ih (j + 1)).1 i hi)
    | some e =>
      have hidx : e.ibwIndex = j := by
        rw [matchEntryOf] at hme
        cases hlm : lookupMatch maps mp (j, r).2 with
        | none => rw [hlm] at hme; cases hme
        | some q =>
          rw [hlm] at hme
          rw [Option.map_some'] at hme
          cases hme
          rfl
      rw [List.filterMap_cons_some hme, List.map_cons]
      constructor
      · intro i hi
        rcases List.mem_cons.mp hi with h | h
        · omega
        · exact le_trans (Nat.le_succ j) ((ih (j + 1)).1 i h)
      · rw [List.pairwise_cons]
        refine ⟨fun i hi => ?_, (ih (j + 1)).2⟩
        have hb := (ih (j + 1)).1 i hi
        omega

/-- A successful findMatches call on cons-shaped datasets returns exactly the
characterized result. -/
theorem findMatches_ok_elim (f0 : Rec) (frest : List Rec) (i0 : Rec) (irest : List Rec)
    (ov : MappingOverride) (res : MatchResult)
    (h : findMatches (some (f0 :: frest)) (some (i0 :: irest)) ov = Except.ok res) :
    res = ⟨((i0 :: irest).enum).filterMap
             (matchEntryOf (createPlayerMaps (f0 :: frest) (mergeMapping ov).fantrax)
               (mergeMapping ov).ibw),
           ⟨(i0 :: irest).countP
              (isExactHit (createPlayerMaps (f0 :: frest) (mergeMapping ov).fantrax)
                (mergeMapping ov).ibw),
            (i0 :: irest).countP
              (isNameOnlyHit (createPlayerMaps (f0 :: frest) (mergeMapping ov).fantrax)
                (mergeMapping ov).ibw),
            (i0 :: irest).countP
              (fun r => (lookupMatch (createPlayerMaps (f0 :: frest) (mergeMapping ov).fantrax)
                (mergeMapping ov).ibw r).isSome),
            (i0 :: irest).length⟩,
           mergeMapping ov⟩ := by
  rw [findMatches] at h
  cases hvf : validateColumns f0 (requiredFantraxCols (mergeMapping ov).fantrax) "Fantrax" with
  | error e => rw [hvf] at h; cases h
  | ok u =>
    cases hvi : validateColumns i0 (requiredIbwCols (mergeMapping ov).ibw) "IBW" with
    | error e => rw [hvf, hvi] at h; cases h
    | ok u2 =>
      rw [hvf, hvi] at h
      dsimp only at h
      rw [show (i0 :: irest).enum = List.enumFrom 0 (i0 :: irest) from rfl] at h ⊢
      rw [foldl_processIbw] at h
      dsimp only at h
      cases h
      simp

/-- A successful findMatches call forces both datasets to be non-empty arrays. -/
theorem findMatches_ok_shape (fp ip : Option (List Rec)) (ov : MappingOverride)
    (res : MatchResult) (h : findMatches fp ip ov = Except.ok res) :
    ∃ f0 frest i0 irest, fp = some (f0 :: frest) ∧ ip = some (i0 :: irest) := by
  cases fp with
  | none => cases h
  | some l =>
    cases l with
    | nil => cases h
    | cons f0 frest =>
      cases ip with
      | none => cases h
      | some l2 =>
        cases l2 with
        | nil => cases h
        | cons i0 irest => exact ⟨f0, frest, i0, irest, rfl, rfl⟩

/-- C3: every successful findMatches call satisfies
totalMatches = exactMatches + nameOnlyMatches, and the produced matches carry
pairwise distinct dataset-B indices, so each dataset-B record contributes at
most one match. -/
theorem findMatches_stats_invariant (fp ip : Option (List Rec)) (ov : MappingOverride)
    (res : MatchResult) (h : findMatches fp ip ov = Except.ok res) :
    res.stats.totalMatches = res.stats.exactMatches + res.stats.nameOnlyMatches ∧
    (res.matchList.map MatchEntry.ibwIndex).Nodup := by
  obtain ⟨f0, frest, i0, irest, hf, hi⟩ := findMatches_ok_shape fp ip ov res h
  subst hf
  subst hi
  have hr := findMatches_ok_elim f0 frest i0 irest ov res h
  subst hr
  constructor
  · exact countP_hit_split _ _ _
  · dsimp only
    rw [show (i0 :: irest).enum = List.enumFrom 0 (i0 :: irest) from rfl]
    have hp := (matchEntry_indices (createPlayerMaps (f0 :: frest) (mergeMapping ov).fantrax)
      (mergeMapping ov).ibw (i0 :: irest) 0).2
    exact List.Pairwise.imp Nat.ne_of_lt hp

/-- A concrete Fantrax record used by the witnesses. -/
def recA0 : Rec :=
  [("Player", some "Mike Trout"), ("Team", some "LAA"), ("Number", some "1"),
   ("Position", some "OF"), ("Age", some "31")]

/-- A concrete IBW record used by the witnesses. -/
def recB0 : Rec :=
  [("Player", some "Mike Trout"), ("Team", some "LAA"), ("Number", some "2")]

/-- The result findMatches returns on the concrete witness datasets. -/
def res0 : MatchResult :=
  ⟨[⟨recB0, recA0, "exact", 0⟩], ⟨1, 0, 1, 1⟩, mergeMapping emptyOverride⟩

/-- C3 witness: the invariant instantiated at a concrete successful call. -/
theorem findMatches_stats_invariant_witness :
    res0.stats.totalMatches = res0.stats.exactMatches + res0.stats.nameOnlyMatches ∧
    (res0.matchList.map MatchEntry.ibwIndex).Nodup :=
  findMatches_stats_invariant (some [recA0]) (some [recB0]) emptyOverride res0 rfl

/-- A Fantrax record whose "Player" key is present but holds a null value. -/
def recPlayerNull : Rec :=
  [("Player", none), ("Team", some "ATL"), ("Number", some "1"),
   ("Position", some "OF"), ("Age", some "25")]

/-- C2 (counterexample): the configured identifier "Player" is required and does
not resolve on the first Fantrax record (its stored value is null, so the field
accessor yields nothing), yet findMatches raises no schema error — column
validation only checks key presence, not resolvability. -/
theorem validateColumns_resolve_cex :
    jsGet recPlayerNull "Player" = none ∧
    "Player" ∈ requiredFantraxCols (mergeMapping emptyOverride).fantrax ∧
    (findMatches (some [recPlayerNull]) (some [recB0]) emptyOverride).isOk = true := by
  refine ⟨rfl, by decide, rfl⟩

/-- C2 (amended): over keyed records, findMatches raises a schema error iff some
configured identifier (after merging defaults and dropping null roles) is
absent from the first record's own key list — a key present with a null value
passes even though it does not resolve; on failure the message lists the
missing identifiers and the available keys, with the Fantrax dataset checked
first; otherwise the call returns a result. -/
theorem findMatches_schema_error (f0 : Rec) (frest : List Rec) (i0 : Rec) (irest : List Rec)
    (ov : MappingOverride) :
    ((requiredFantraxCols (mergeMapping ov).fantrax).filter
        (fun col => !((f0.map (fun p => p.1)).any (fun available => available == col))) ≠ [] →
      findMatches (some (f0 :: frest)) (some (i0 :: irest)) ov
        = Except.error (schemaErrorMsg "Fantrax"
            ((requiredFantraxCols (mergeMapping ov).fantrax).filter
              (fun col => !((f0.map (fun p => p.1)).any (fun available => available == col))))
            (f0.map (fun p => p.1)))) ∧
    ((requiredFantraxCols (mergeMapping ov).fantrax).filter
        (fun col => !((f0.map (fun p => p.1)).any (fun available => available == col))) = [] →
      (requiredIbwCols (mergeMapping ov).ibw).filter
        (fun col => !((i0.map (fun p => p.1)).any (fun available => available == col))) ≠ [] →
      findMatches (some (f0 :: frest)) (some (i0 :: irest)) ov
        = Except.error (schemaErrorMsg "IBW"
            ((requiredIbwCols (mergeMapping ov).ibw).filter
              (fun col => !((i0.map (fun p => p.1)).any (fun available => available == col))))
            (i0.map (fun p => p.1)))) ∧
    ((requiredFantraxCols (mergeMapping ov).fantrax).filter
        (fun col => !((f0.map (fun p => p.1)).any (fun available => available == col))) = [] →
      (requiredIbwCols (mergeMapping ov).ibw).filter
        (fun col => !((i0.map (fun p => p.1)).any (fun available => available == col))) = [] →
      (findMatches (some (f0 :: frest)) (some (i0 :: irest)) ov).isOk = true) := by
  refine ⟨fun hne => ?_, fun hF hne => ?_, fun hF hI => ?_⟩
  · have hvf : validateColumns f0 (requiredFantraxCols (mergeMapping ov).fantrax) "Fantrax"
        = Except.error (schemaErrorMsg "Fantrax"
            ((requiredFantraxCols (mergeMapping ov).fantrax).filter
              (fun col => !((f0.map (fun p => p.1)).any (fun available => available == col))))
            (f0.map (fun p => p.1))) := by
      rw [validateColumns]
      rw [if_pos hne]
    simp only [findMatches, hvf]
  · have hvf : validateColumns f0 (requiredFantraxCols (mergeMapping ov).fantrax) "Fantrax"
        = Except.ok () := by
      rw [validateColumns]
      rw [if_neg (fun hc => hc hF)]
    have hvi : validateColumns i0 (requiredIbwCols (mergeMapping ov).ibw) "IBW"
        = Except.error (schemaErrorMsg "IBW"
            ((requiredIbwCols (mergeMapping ov).ibw).filter
              (fun col => !((i0.map (fun p => p.1)).any (fun available => available == col))))
            (i0.map (fun p => p.1))) := by
      rw [validateColumns]
      rw [if_pos hne]
    simp only [findMatches, hvf, hvi]
  · have hvf : validateColumns f0 (requiredFantraxCols (mergeMapping ov).fantrax) "Fantrax"
        = Except.ok () := by
      rw [validateColumns]
      rw [if_neg (fun hc => hc hF)]
    have hvi : validateColumns i0 (requiredIbwCols (mergeMapping ov).ibw) "IBW"
        = Except.ok () := by
      rw [validateColumns]
      rw [if_neg (fun hc => hc hI)]
    simp only [findMatches, hvf, hvi]
    rfl

/-- C2 witness: a first Fantrax record missing every configured column makes
findMatches fail with the full diagnostic message. -/
theorem findMatches_schema_error_witness :
    findMatches (some [[("Foo", some "1")]]) (some [recB0]) emptyOverride
      = Except.error ("Missing required columns in Fantrax data: " ++
          "Player, Team, Number, Position, Age. Available columns: Foo") :=
  ((findMatches_schema_error [("Foo", some "1")] [] recB0 [] emptyOverride).1
    (by decide)).trans (by rfl)

/-- A match entry with the dataset-B position forgotten. -/
structure MatchCore where
  ibwPlayer : Rec
  fantraxData : Rec
  matchType : String
deriving DecidableEq

/-- Forgets the dataset-B position of a match entry. -/
def stripIndex (e : MatchEntry) : MatchCore := ⟨e.ibwPlayer, e.fantraxData, e.matchType⟩

/-- Up to positions, the produced matches do not depend on the enumeration
start index. -/
theorem stripped_entries (maps : PlayerMaps) (mp : IbwMapping) :
    ∀ (l : List Rec) (j : Nat),
    ((List.enumFrom j l).filterMap (matchEntryOf maps mp)).map stripIndex
      = l.filterMap
          (fun r => (lookupMatch maps mp r).map (fun q => (⟨r, q.1, q.2⟩ : MatchCore))) := by
  intro l
  induction l with
  | nil => intro j; rfl
  | cons r rest ih =>
    intro j
    rw [show List.enumFrom j (r :: rest) = (j, r) :: List.enumFrom (j + 1) rest from rfl]
    cases hlm : lookupMatch maps mp r with
    | none =>
      have hme : matchEntryOf maps mp (j, r) = none := by
        rw [matchEntryOf]
        dsimp only
        rw [hlm]
        rfl
      rw [List.filterMap_cons_none hme, List.filterMap_cons_none (by rw [hlm]; rfl)]
      exact ih (j + 1)
    | some q =>
      have hme : matchEntryOf maps mp (j, r) = some ⟨r, q.1, q.2, j⟩ := by
        rw [matchEntryOf]
        dsimp only
        rw [hlm]
        rfl
      rw [List.filterMap_cons_some hme,
        @List.filterMap_cons_some Rec MatchCore
          (fun r => (lookupMatch maps mp r).map (fun p => (⟨r, p.1, p.2⟩ : MatchCore)))
          r rest ⟨r, q.1, q.2⟩ (by dsimp only; rw [hlm]; rfl),
        List.map_cons]
      rw [ih (j + 1)]
      rfl

/-- Indexing skips a record whose resolved player name is empty. -/
theorem createPlayerMaps_skip (mp : FantraxMapping) (a1 a2 : List Rec) (r : Rec)
    (h : getFieldValueOpt r mp.player = "") :
    createPlayerMaps (a1 ++ r :: a2) mp = createPlayerMaps (a1 ++ a2) mp := by
  rw [createPlayerMaps, createPlayerMaps, List.foldl_append, List.foldl_append,
    List.foldl_cons]
  rw [show indexRecord mp (a1.foldl (indexRecord mp) ⟨[], []⟩) r
      = a1.foldl (indexRecord mp) ⟨[], []⟩ from by
    rw [indexRecord]
    simp [fantraxName, h]]

/-- A record on which the predicate fails does not change a count, wherever it
sits in the tail. -/
theorem countP_cons_middle_skip (p : Rec → Bool) (b0 : Rec) (b1 b2 : List Rec) {r : Rec}
    (hb : p r = false) :
    List.countP p (b0 :: (b1 ++ r :: b2)) = List.countP p (b0 :: (b1 ++ b2)) := by
  rw [List.countP_cons, List.countP_cons, List.countP_append, List.countP_append,
    List.countP_cons, hb]
  simp

/-- A record the partial function rejects does not change a filterMap, wherever
it sits in the tail. -/
theorem filterMap_cons_middle_skip {β : Type} (g : Rec → Option β) (b0 : Rec)
    (b1 b2 : List Rec) {r : Rec} (hb : g r = none) :
    List.filterMap g (b0 :: (b1 ++ r :: b2)) = List.filterMap g (b0 :: (b1 ++ b2)) := by
  cases hg : g b0 with
  | none =>
    rw [List.filterMap_cons_none hg, List.filterMap_cons_none hg,
      List.filterMap_append, List.filterMap_append, List.filterMap_cons_none hb]
  | some e =>
    rw [List.filterMap_cons_some hg, List.filterMap_cons_some hg,
      List.filterMap_append, List.filterMap_append, List.filterMap_cons_none hb]

/-- A successful findMatches call passes both column validations. -/
theorem findMatches_ok_valid (f0 : Rec) (frest : List Rec) (i0 : Rec) (irest : List Rec)
    (ov : MappingOverride) (res : MatchResult)
    (h : findMatches (some (f0 :: frest)) (some (i0 :: irest)) ov = Except.ok res) :
    validateColumns f0 (requiredFantraxCols (mergeMapping ov).fantrax) "Fantrax"
        = Except.ok () ∧
    validateColumns i0 (requiredIbwCols (mergeMapping ov).ibw) "IBW" = Except.ok () := by
  rw [findMatches] at h
  cases hvf : validateColumns f0 (requiredFantraxCols (mergeMapping ov).fantrax) "Fantrax" with
  | error e => rw [hvf] at h; cases h
  | ok u =>
    cases u
    refine ⟨rfl, ?_⟩
    cases hvi : validateColumns i0 (requiredIbwCols (mergeMapping ov).ibw) "IBW" with
    | error e => rw [hvf, hvi] at h; cases h
    | ok u2 => cases u2; rfl

/-- With both validations passing, findMatches returns the characterized result. -/
theorem findMatches_ok_intro (f0 : Rec) (frest : List Rec) (i0 : Rec) (irest : List Rec)
    (ov : MappingOverride)
    (hvf : validateColumns f0 (requiredFantraxCols (mergeMapping ov).fantrax) "Fantrax"
        = Except.ok ())
    (hvi : validateColumns i0 (requiredIbwCols (mergeMapping ov).ibw) "IBW" = Except.ok ()) :
    findMatches (some (f0 :: frest)) (some (i0 :: irest)) ov
      = Except.ok ⟨(List.enumFrom 0 (i0 :: irest)).filterMap
             (matchEntryOf (createPlayerMaps (f0 :: frest) (mergeMapping ov).fantrax)
               (mergeMapping ov).ibw),
           ⟨(i0 :: irest).countP
              (isExactHit (createPlayerMaps (f0 :: frest) (mergeMapping ov).fantrax)
                (mergeMapping ov).ibw),
            (i0 :: irest).countP
              (isNameOnlyHit (createPlayerMaps (f0 :: frest) (mergeMapping ov).fantrax)
                (mergeMapping ov).ibw),
            (i0 :: irest).countP
              (fun r => (lookupMatch (createPlayerMaps (f0 :: frest) (mergeMapping ov).fantrax)
                (mergeMapping ov).ibw r).isSome),
            (i0 :: irest).length⟩,
           mergeMapping ov⟩ := by
  simp only [findMatches, hvf, hvi]
  rw [show (i0 :: irest).enum = List.enumFrom 0 (i0 :: irest) from rfl, foldl_processIbw]
  simp

/-- For records past the first, indexing an empty-name dataset-A record changes
nothing about the whole call. -/
theorem findMatches_skip_fantrax_side (a0 : Rec) (a1 a2 : List Rec) (r : Rec)
    (ib : Option (List Rec)) (ov : MappingOverride)
    (h : getFieldValueOpt r (mergeMapping ov).fantrax.player = "") :
    findMatches (some (a0 :: (a1 ++ r :: a2))) ib ov
      = findMatches (some (a0 :: (a1 ++ a2))) ib ov := by
  have hmaps : createPlayerMaps (a0 :: (a1 ++ r :: a2)) (mergeMapping ov).fantrax
      = createPlayerMaps (a0 :: (a1 ++ a2)) (mergeMapping ov).fantrax := by
    rw [show a0 :: (a1 ++ r :: a2) = (a0 :: a1) ++ r :: a2 from rfl,
      show a0 :: (a1 ++ a2) = (a0 :: a1) ++ a2 from rfl]
    exact createPlayerMaps_skip _ _ _ _ h
  cases ib with
  | none => rfl
  | some l =>
    cases l with
    | nil => rfl
    | cons i0 irest =>
      simp only [findMatches]
      cases hvf : validateColumns a0 (requiredFantraxCols (mergeMapping ov).fantrax) "Fantrax" with
      | error e => simp only [hvf]
      | ok u =>
        simp only [hvf]
        cases hvi : validateColumns i0 (requiredIbwCols (mergeMapping ov).ibw) "IBW" with
        | error e => simp only [hvi]
        | ok u2 => simp only [hvi, hmaps]

/-- Dropping a non-first dataset-B record with an empty resolved name preserves
success, all three match counters, and the matches themselves (up to
positions); only totalIBWPlayers drops by one. -/
theorem findMatches_skip_ibw_side (a : List Rec) (b0 : Rec) (b1 b2 : List Rec) (r : Rec)
    (ov : MappingOverride) (res : MatchResult)
    (hname : getFieldValueOpt r (mergeMapping ov).ibw.player = "")
    (h : findMatches (some a) (some (b0 :: (b1 ++ r :: b2))) ov = Except.ok res) :
    ∃ res', findMatches (some a) (some (b0 :: (b1 ++ b2))) ov = Except.ok res' ∧
      res.stats.exactMatches = res'.stats.exactMatches ∧
      res.stats.nameOnlyMatches = res'.stats.nameOnlyMatches ∧
      res.stats.totalMatches = res'.stats.totalMatches ∧
      res.stats.totalIBWPlayers = res'.stats.totalIBWPlayers + 1 ∧
      res.matchList.map stripIndex = res'.matchList.map stripIndex := by
  cases a with
  | nil => cases h
  | cons f0 frest =>
    obtain ⟨hvf, hvi⟩ := findMatches_ok_valid f0 frest b0 (b1 ++ r :: b2) ov res h
    have hres := findMatches_ok_elim f0 frest b0 (b1 ++ r :: b2) ov res h
    have h2 := findMatches_ok_intro f0 frest b0 (b1 ++ b2) ov hvf hvi
    have hlmr : lookupMatch (createPlayerMaps (f0 :: frest) (mergeMapping ov).fantrax)
        (mergeMapping ov).ibw r = none := by
      rw [lookupMatch]
      simp [hname]
    refine ⟨_, h2, ?_, ?_, ?_, ?_, ?_⟩
    all_goals subst hres
    · dsimp only
      exact countP_cons_middle_skip _ _ _ _ (by rw [isExactHit, hlmr])
    · dsimp only
      exact countP_cons_middle_skip _ _ _ _ (by rw [isNameOnlyHit, hlmr])
    · dsimp only
      exact countP_cons_middle_skip _ _ _ _ (by rw [hlmr]; rfl)
    · dsimp only
      simp only [List.length_cons, List.length_append]
      omega
    · dsimp only
      rw [show (b0 :: (b1 ++ r :: b2)).enum = List.enumFrom 0 (b0 :: (b1 ++ r :: b2)) from rfl]
      rw [stripped_entries, stripped_entries]
      exact filterMap_cons_middle_skip _ _ _ _ (by rw [hlmr]; rfl)

/-- C8 (amended): a record whose resolved player name is empty is silently
skipped provided it is not the representative first record of its dataset:
it contributes no index entries (first conjunct), its presence anywhere past
the head of dataset A leaves the whole call unchanged (second conjunct), and
dropping it from a non-head position of dataset B preserves success, every
match counter and the matches themselves, while it is still counted in
totalIBWPlayers (third conjunct). -/
theorem empty_name_skip :
    (∀ (mp : FantraxMapping) (a1 a2 : List Rec) (r : Rec),
      getFieldValueOpt r mp.player = "" →
      createPlayerMaps (a1 ++ r :: a2) mp = createPlayerMaps (a1 ++ a2) mp) ∧
    (∀ (a0 : Rec) (a1 a2 : List Rec) (r : Rec) (ib : Option (List Rec)) (ov : MappingOverride),
      getFieldValueOpt r (mergeMapping ov).fantrax.player = "" →
      findMatches (some (a0 :: (a1 ++ r :: a2))) ib ov
        = findMatches (some (a0 :: (a1 ++ a2))) ib ov) ∧
    (∀ (a : List Rec) (b0 : Rec) (b1 b2 : List Rec) (r : Rec) (ov : MappingOverride)
      (res : MatchResult),
      getFieldValueOpt r (mergeMapping ov).ibw.player = "" →
      findMatches (some a) (some (b0 :: (b1 ++ r :: b2))) ov = Except.ok res →
      ∃ res', findMatches (some a) (some (b0 :: (b1 ++ b2))) ov = Except.ok res' ∧
        res.stats.exactMatches = res'.stats.exactMatches ∧
        res.stats.nameOnlyMatches = res'.stats.nameOnlyMatches ∧
        res.stats.totalMatches = res'.stats.totalMatches ∧
        res.stats.totalIBWPlayers = res'.stats.totalIBWPlayers + 1 ∧
        res.matchList.map stripIndex = res'.matchList.map stripIndex) :=
  ⟨fun mp a1 a2 r h => createPlayerMaps_skip mp a1 a2 r h,
   fun a0 a1 a2 r ib ov h => findMatches_skip_fantrax_side a0 a1 a2 r ib ov h,
   fun a b0 b1 b2 r ov res hname h => findMatches_skip_ibw_side a b0 b1 b2 r ov res hname h⟩

/-- C8 (counterexample): an empty record resolves to an empty player name, yet
placed first in dataset B it makes findMatches raise a schema error — the
claim's unconditional "raises no error" fails for the representative record. -/
theorem empty_name_skip_cex :
    getFieldValueOpt ([] : Rec) (mergeMapping emptyOverride).ibw.player = "" ∧
    findMatches (some [recA0]) (some [([] : Rec), recB0]) emptyOverride
      = Except.error ("Missing required columns in IBW data: " ++
          "Player, Team, Number, Number. Available columns: ") :=
  ⟨rfl, rfl⟩

/-- A record whose "Player" value trims to the empty string. -/
def recEmptyName : Rec := [("Player", some "  "), ("Team", some "ATL")]

/-- C8 witness: the skip behaviour at concrete inputs. -/
theorem empty_name_skip_witness :
    findMatches (some (recA0 :: ([] ++ recEmptyName :: []))) (some [recB0]) emptyOverride
      = findMatches (some (recA0 :: ([] ++ []))) (some [recB0]) emptyOverride ∧
    createPlayerMaps ([recA0] ++ recEmptyName :: []) (mergeMapping emptyOverride).fantrax
      = createPlayerMaps ([recA0] ++ []) (mergeMapping emptyOverride).fantrax :=
  ⟨empty_name_skip.2.1 recA0 [] [] recEmptyName (some [recB0]) emptyOverride (by decide),
   empty_name_skip.1 (mergeMapping emptyOverride).fantrax [recA0] [] recEmptyName (by decide)⟩

/-- Replaces (or adds) one field of a record, keeping every other field. -/
def recSetField : Rec → String → Option String → Rec
  | [], k, v => [(k, v)]
  | p :: rest, k, v => if p.1 == k then (k, v) :: rest else p :: recSetField rest k v

/-- Reading any other key is unchanged by recSetField. -/
theorem jsGet_recSetField_ne (r : Rec) (k : String) (v : Option String) (c : String)
    (h : c ≠ k) : jsGet (recSetField r k v) c = jsGet r c := by
  induction r with
  | nil =>
    simp only [recSetField, jsGet, List.find?]
    rw [show (k == c) = false from beq_eq_false_iff_ne.mpr (fun he => h he.symm)]
  | cons p rest ih =>
    by_cases hp : p.1 = k
    · rw [recSetField, if_pos (by simpa using hp)]
      rw [jsGet, jsGet, List.find?_cons, List.find?_cons]
      rw [show (k == c) = false from beq_eq_false_iff_ne.mpr (fun he => h he.symm)]
      rw [show (p.1 == c) = false from beq_eq_false_iff_ne.mpr
        (fun he => h ((he ▸ hp : c = k)))]
    · rw [recSetField, if_neg (by simpa using hp)]
      rw [jsGet, List.find?_cons]
      cases hpc : (p.1 == c) with
      | true => rw [jsGet, List.find?_cons, hpc]
      | false =>
        rw [jsGet, List.find?_cons, hpc]
        exact ih

/-- A key present before recSetField is still present afterwards. -/
theorem keys_recSetField (r : Rec) (k : String) (v : Option String) (c : String)
    (h : ((r.map (fun p => p.1)).any (fun a => a == c)) = true) :
    (((recSetField r k v).map (fun p => p.1)).any (fun a => a == c)) = true := by
  induction r with
  | nil => simp at h
  | cons p rest ih =>
    by_cases hp : p.1 = k
    · rw [recSetField, if_pos (by simpa using hp)]
      simp only [List.map_cons, List.any_cons] at h ⊢
      rcases Bool.or_eq_true_iff.mp h with h1 | h2
      · exact Bool.or_eq_true_iff.mpr (Or.inl (by rw [← hp]; exact h1))
      · exact Bool.or_eq_true_iff.mpr (Or.inr h2)
    · rw [recSetField, if_neg (by simpa using hp)]
      simp only [List.map_cons, List.any_cons] at h ⊢
      rcases Bool.or_eq_true_iff.mp h with h1 | h2
      · exact Bool.or_eq_true_iff.mpr (Or.inl h1)
      · exact Bool.or_eq_true_iff.mpr (Or.inr (ih h2))

/-- Column validation succeeds exactly when no configured column is missing
from the record's keys. -/
theorem validateColumns_ok_iff (sampleRecord : Rec) (requiredColumns : List String)
    (dataType : String) :
    validateColumns sampleRecord requiredColumns dataType = Except.ok () ↔
    requiredColumns.filter
      (fun col => !((sampleRecord.map (fun p => p.1)).any
        (fun available => available == col))) = [] := by
  rw [validateColumns]
  by_cases hf : requiredColumns.filter
      (fun col => !((sampleRecord.map (fun p => p.1)).any
        (fun available => available == col))) = []
  · rw [if_neg (fun hc => hc hf)]
    exact ⟨fun _ => hf, fun _ => rfl⟩
  · rw [if_pos hf]
    exact ⟨fun hc => absurd hc (by simp), fun hc => absurd hc hf⟩

/-- Projects the statistics out of a findMatches outcome. -/
def statsOf : Except String MatchResult → Option Stats
  | Except.ok r => some r.stats
  | Except.error _ => none

/-- A dataset-A record whose full key "x_y_z" arises from name "x_y", team "z". -/
def cexA6 : Rec :=
  [("Player", some "x_y"), ("Team", some "z"), ("Number", some "1"),
   ("Position", some "p"), ("Age", some "9")]

/-- A dataset-B record whose full key "x_y_z" arises from name "x", team "y_z". -/
def cexB6 : Rec := [("Player", some "x"), ("Team", some "y_z"), ("Number", some "1")]

/-- C6 (counterexample): before replacement the run has one exact match; the
replacement team "QQQ" normalizes to "qqq", which occurs nowhere in dataset A
(the only normalized team there is "z"), and the replaced record's new full key
misses the exact index, so no new collision is introduced — yet after replacing
the team the run has zero matches: the prior exact match is lost instead of
becoming a name-only match, refuting the claimed preservation of totalMatches. -/
theorem team_replacement_cex :
    statsOf (findMatches (some [cexA6]) (some [cexB6]) emptyOverride)
      = some ⟨1, 0, 1, 1⟩ ∧
    jsToLower (jsTrim "QQQ") = "qqq" ∧
    fantraxTeam (mergeMapping emptyOverride).fantrax cexA6 = "z" ∧
    jsMapGet (createPlayerMaps [cexA6] (mergeMapping emptyOverride).fantrax).exact
      (ibwFullKey (mergeMapping emptyOverride).ibw
        (recSetField cexB6 "Team" (some "QQQ"))) = none ∧
    statsOf (findMatches (some [cexA6])
        (some ([cexB6].map (fun x => recSetField x "Team" (some "QQQ")))) emptyOverride)
      = some ⟨0, 0, 0, 1⟩ :=
  ⟨rfl, rfl, rfl, rfl, rfl⟩

/-- lookupMatch written through the named key helpers. -/
theorem lookupMatch_eq (maps : PlayerMaps) (mp : IbwMapping) (b : Rec) :
    lookupMatch maps mp b =
      if ibwName mp b = "" then none
      else
        match jsMapGet maps.exact (ibwFullKey mp b) with
        | some fd => some (fd, "exact")
        | none =>
          match jsMapGet maps.nameOnly (ibwNameKey mp b) with
          | some fd => some (fd, "name-only")
          | none => none := rfl

/-- After replacing the team field with any value whose new full key misses the
exact index, a record can no longer match exactly; it matches name-only
exactly when the original record matched at all, provided every exact match
of the original record is also reachable through the name-only index. -/
theorem replaced_lookup (maps : PlayerMaps) (mp : IbwMapping) (pc tc : String)
    (hpc : mp.player = some pc) (htc : mp.team = some tc) (hne : pc ≠ tc)
    (tStar : String) (b : Rec)
    (hfresh : getFieldValueOpt (recSetField b tc (some tStar)) mp.player ≠ "" →
      jsMapGet maps.exact (ibwFullKey mp (recSetField b tc (some tStar))) = none)
    (hexact : getFieldValueOpt b mp.player ≠ "" →
      (jsMapGet maps.exact (ibwFullKey mp b)).isSome = true →
      (jsMapGet maps.nameOnly (ibwNameKey mp b)).isSome = true) :
    isExactHit maps mp (recSetField b tc (some tStar)) = false ∧
    isNameOnlyHit maps mp (recSetField b tc (some tStar))
      = (lookupMatch maps mp b).isSome ∧
    (lookupMatch maps mp (recSetField b tc (some tStar))).isSome
      = (lookupMatch maps mp b).isSome := by
  have hg : jsGet (recSetField b tc (some tStar)) pc = jsGet b pc :=
    jsGet_recSetField_ne b tc (some tStar) pc hne
  have hnm : getFieldValueOpt (recSetField b tc (some tStar)) mp.player
      = getFieldValueOpt b mp.player := by
    rw [hpc]
    show getFieldValue _ pc = getFieldValue _ pc
    rw [getFieldValue, getFieldValue, hg]
  have hnameB : ibwName mp (recSetField b tc (some tStar)) = ibwName mp b := by
    rw [ibwName, ibwName, hnm]
  have hnk : ibwNameKey mp (recSetField b tc (some tStar)) = ibwNameKey mp b := by
    rw [ibwNameKey, ibwNameKey, hnameB]
  by_cases hname0 : getFieldValueOpt b mp.player = ""
  · have hb : lookupMatch maps mp b = none := by
      rw [lookupMatch_eq, if_pos (by rw [ibwName]; exact hname0)]
    have hb' : lookupMatch maps mp (recSetField b tc (some tStar)) = none := by
      rw [lookupMatch_eq, if_pos (by rw [ibwName, hnm]; exact hname0)]
    rw [isExactHit, isNameOnlyHit, hb, hb']
    exact ⟨rfl, rfl, rfl⟩
  · have hfr := hfresh (by rw [hnm]; exact hname0)
    have hb' : lookupMatch maps mp (recSetField b tc (some tStar))
        = match jsMapGet maps.nameOnly (ibwNameKey mp b) with
          | some fd => some (fd, "name-only")
          | none => none := by
      rw [lookupMatch_eq, if_neg (by rw [hnameB, ibwName]; exact hname0), hfr, hnk]
    have hbm : lookupMatch maps mp b
        = match jsMapGet maps.exact (ibwFullKey mp b) with
          | some fd => some (fd, "exact")
          | none =>
            match jsMapGet maps.nameOnly (ibwNameKey mp b) with
            | some fd => some (fd, "name-only")
            | none => none := by
      rw [lookupMatch_eq, if_neg (by rw [ibwName]; exact hname0)]
    cases hex : jsMapGet maps.exact (ibwFullKey mp b) with
    | some fd =>
      have hno := hexact hname0 (by rw [hex]; rfl)
      cases hnoc : jsMapGet maps.nameOnly (ibwNameKey mp b) with
      | none => rw [hnoc] at hno; cases hno
      | some fd2 =>
        rw [isExactHit, isNameOnlyHit, hb', hbm, hex, hnoc]
        exact ⟨rfl, rfl, rfl⟩
    | none =>
      cases hnoc : jsMapGet maps.nameOnly (ibwNameKey mp b) with
      | none =>
        rw [isExactHit, isNameOnlyHit, hb', hbm, hex, hnoc]
        exact ⟨rfl, rfl, rfl⟩
      | some fd2 =>
        rw [isExactHit, isNameOnlyHit, hb', hbm, hex, hnoc]
        exact ⟨rfl, rfl, rfl⟩

/-- C6 (amended): replacing the team field of every dataset-B record with a
fixed value turns every previous match into a name-only match and kills all
exact matches — totalMatches preserved, exactMatches zero, nameOnlyMatches
equal to the old total — under the hypotheses the counterexample forces:
(a) the player and team roles are distinct non-null columns, (b) every
replaced record's new full key misses the exact index (the claim's "normalized
team occurs nowhere in dataset A / no new collisions"), and (c) every
originally exact-matching record's name-only key is present in the name-only
index (which can fail only through underscore ambiguity between the name and
team parts of a full key). -/
theorem findMatches_team_replacement (A B : List Rec) (ov : MappingOverride)
    (tStar : String) (res : MatchResult) (pc tc : String)
    (hpc : (mergeMapping ov).ibw.player = some pc)
    (htc : (mergeMapping ov).ibw.team = some tc)
    (hne : pc ≠ tc)
    (h : findMatches (some A) (some B) ov = Except.ok res)
    (hfresh : ∀ b ∈ B.map (fun x => recSetField x tc (some tStar)),
      getFieldValueOpt b (mergeMapping ov).ibw.player ≠ "" →
      jsMapGet (createPlayerMaps A (mergeMapping ov).fantrax).exact
        (ibwFullKey (mergeMapping ov).ibw b) = none)
    (hexact : ∀ b ∈ B, getFieldValueOpt b (mergeMapping ov).ibw.player ≠ "" →
      (jsMapGet (createPlayerMaps A (mergeMapping ov).fantrax).exact
        (ibwFullKey (mergeMapping ov).ibw b)).isSome = true →
      (jsMapGet (createPlayerMaps A (mergeMapping ov).fantrax).nameOnly
        (ibwNameKey (mergeMapping ov).ibw b)).isSome = true) :
    ∃ res', findMatches (some A) (some (B.map (fun x => recSetField x tc (some tStar)))) ov
        = Except.ok res' ∧
      res'.stats.exactMatches = 0 ∧
      res'.stats.nameOnlyMatches = res.stats.totalMatches ∧
      res'.stats.totalMatches = res.stats.totalMatches := by
  cases A with
  | nil => cases h
  | cons f0 frest =>
    cases B with
    | nil => cases h
    | cons b0 brest =>
      obtain ⟨hvf, hvi⟩ := findMatches_ok_valid f0 frest b0 brest ov res h
      have hres := findMatches_ok_elim f0 frest b0 brest ov res h
      subst hres
      have hvi' : validateColumns (recSetField b0 tc (some tStar))
          (requiredIbwCols (mergeMapping ov).ibw) "IBW" = Except.ok () := by
        rw [validateColumns_ok_iff] at hvi ⊢
        rw [List.filter_eq_nil_iff] at hvi ⊢
        intro col hcol
        have h1 := hvi col hcol
        simp only [Bool.not_eq_true', Bool.not_eq_false] at h1 ⊢
        exact keys_recSetField b0 tc (some tStar) col h1
      have h2 := findMatches_ok_intro f0 frest (recSetField b0 tc (some tStar))
        (brest.map (fun x => recSetField x tc (some tStar))) ov hvf hvi'
      have hper : ∀ b ∈ (b0 :: brest),
          isExactHit (createPlayerMaps (f0 :: frest) (mergeMapping ov).fantrax)
            (mergeMapping ov).ibw (recSetField b tc (some tStar)) = false ∧
          isNameOnlyHit (createPlayerMaps (f0 :: frest) (mergeMapping ov).fantrax)
            (mergeMapping ov).ibw (recSetField b tc (some tStar))
            = (lookupMatch (createPlayerMaps (f0 :: frest) (mergeMapping ov).fantrax)
                (mergeMapping ov).ibw b).isSome ∧
          (lookupMatch (createPlayerMaps (f0 :: frest) (mergeMapping ov).fantrax)
            (mergeMapping ov).ibw (recSetField b tc (some tStar))).isSome
            = (lookupMatch (createPlayerMaps (f0 :: frest) (mergeMapping ov).fantrax)
                (mergeMapping ov).ibw b).isSome := by
        intro b hb
        exact replaced_lookup _ _ pc tc hpc htc hne tStar b
          (hfresh _ (List.mem_map_of_mem _ hb)) (hexact b hb)
      rw [List.map_cons]
      refine ⟨_, h2, ?_, ?_, ?_⟩
      · dsimp only
        rw [show (recSetField b0 tc (some tStar)
              :: brest.map (fun x => recSetField x tc (some tStar)))
            = (b0 :: brest).map (fun x => recSetField x tc (some tStar)) from rfl]
        rw [List.countP_map, List.countP_eq_zero]
        intro b hb
        simp only [Function.comp_apply]
        rw [(hper b hb).1]
        simp
      · dsimp only
        rw [show (recSetField b0 tc (some tStar)
              :: brest.map (fun x => recSetField x tc (some tStar)))
            = (b0 :: brest).map (fun x => recSetField x tc (some tStar)) from rfl]
        rw [List.countP_map]
        exact List.countP_congr (fun b hb => by
          simp only [Function.comp_apply]
          rw [(hper b hb).2.1])
      · dsimp only
        rw [show (recSetField b0 tc (some tStar)
              :: brest.map (fun x => recSetField x tc (some tStar)))
            = (b0 :: brest).map (fun x => recSetField x tc (some tStar)) from rfl]
        rw [List.countP_map]
        exact List.countP_congr (fun b hb => by
          simp only [Function.comp_apply]
          rw [(hper b hb).2.2])

/-- C6 witness: the replacement property at a concrete input where one exact
match becomes one name-only match. -/
theorem findMatches_team_replacement_witness :
    ∃ res', findMatches (some [recA0])
        (some ([recB0].map (fun x => recSetField x "Team" (some "QQQ")))) emptyOverride
        = Except.ok res' ∧
      res'.stats.exactMatches = 0 ∧
      res'.stats.nameOnlyMatches = res0.stats.totalMatches ∧
      res'.stats.totalMatches = res0.stats.totalMatches :=
  findMatches_team_replacement [recA0] [recB0] emptyOverride "QQQ" res0 "Player" "Team"
    rfl rfl (by decide) rfl (by decide) (by decide)
